import Mathlib

/-!
Verification development for the crawl-prioritization and registration core of
the poi_scraper repository (src/poi_scraper/poi_manager.py, class PoiManager).

The embedding below translates the Python source into Lean:
* Python float scores become exact rationals (ℚ).
* `urllib.parse.urlparse` is modelled by `urlparse_netloc` / `urlparse_path`,
  following CPython's `urlsplit` (scheme removal, `//`-netloc extraction,
  fragment and query stripping); the path-params split at `;` is omitted,
  as it never touches the netloc and never changes the number of `/`
  characters in the path, which is all the core reads from a parsed URL.
* The external scraper is an oracle producing, per invocation, the sequence of
  callbacks (`register_poi` / `register_link`) it performed, plus a flag saying
  whether it then raised; the external validator is an oracle returning a
  verdict.  Both are parameters of the driver functions.
* Python's `PriorityQueue[ScoredURL]` is kept as an insertion-ordered list;
  `popMax` removes the earliest highest-priority entry.  The comparison
  direction of `ScoredURL` lives in poi_types.py, which is not part of the
  excerpted source; it is modelled from the spec ("higher priority is dequeued
  first", ties by insertion order) where `popMax` is introduced.
* The `while` loop of `PoiManager.process` is given an explicit fuel
  parameter; one fuel unit corresponds to one loop iteration.
* A ghost `trace` field records every scraper invocation `(url, succeeded)`;
  it is write-only instrumentation and feeds no decision in the driver.
-/

/-- One character of a URL scheme (CPython `scheme_chars`). -/
def scheme_char (c : Char) : Bool :=
  c.isAlpha || c.isDigit || c == '+' || c == '-' || c == '.'

/-- Split a character list at the first occurrence of `c` (the occurrence is
dropped), returning `none` when `c` does not occur. -/
def splitFirstAt (c : Char) : List Char → Option (List Char × List Char)
  | [] => none
  | x :: xs =>
      if x == c then some ([], xs)
      else (splitFirstAt c xs).map (fun pr => (x :: pr.1, pr.2))

/-- Remove a leading `scheme:` when the text before the first `:` is a valid
scheme (nonempty, starts with a letter, all scheme characters), as CPython's
`urlsplit` does. -/
def dropScheme (l : List Char) : List Char :=
  match splitFirstAt ':' l with
  | none => l
  | some pr =>
      if pr.1 ≠ [] ∧ (pr.1.headD ' ').isAlpha ∧ pr.1.all scheme_char then pr.2
      else l

/-- Characters terminating the netloc portion (CPython `_splitnetloc`). -/
def netlocDelim (c : Char) : Bool := c == '/' || c == '?' || c == '#'

/-- After scheme removal: when the remainder starts with `//`, split off the
netloc (up to the first `/`, `?` or `#`); otherwise the netloc is empty. -/
def splitNetloc : List Char → List Char × List Char
  | '/' :: '/' :: rest =>
      (rest.takeWhile (fun c => !(netlocDelim c)),
       rest.dropWhile (fun c => !(netlocDelim c)))
  | l => ([], l)

/-- `urlparse(url).netloc` of the Python source. -/
def urlparse_netloc (url : String) : String :=
  ⟨(splitNetloc (dropScheme url.data)).1⟩

/-- `urlparse(url).path` of the Python source: the remainder after scheme and
netloc, with fragment (`#…`) and query (`?…`) stripped. -/
def urlparse_path (url : String) : String :=
  ⟨((splitNetloc (dropScheme url.data)).2.takeWhile (fun c => c != '#')).takeWhile
      (fun c => c != '?')⟩

/-- Python's `str.split("/")`: splits at every `/`, keeping empty parts. -/
def pySplitSlash : List Char → List (List Char)
  | [] => [[]]
  | c :: cs =>
      match pySplitSlash cs with
      | [] => [[]]
      | h :: t => if c == '/' then [] :: h :: t else (c :: h) :: t

/-- poi_types.PoiData: a POI candidate reported by the scraper. -/
structure PoiData where
  name : String
  description : String
  category : String
  location : Option String
deriving DecidableEq

/-- poi_types.PoiValidationResult: the validator oracle's verdict. -/
structure PoiValidationResult where
  is_valid : Bool
  name : String
  description : String
  raw_response : String
deriving DecidableEq

/-- One value of the `poi_list` dict: `{description, category, location}`. -/
structure PoiEntry where
  description : String
  category : String
  location : Option String
deriving DecidableEq

/-- poi_types.ScoredURL: a frontier entry. -/
structure ScoredURL where
  url : String
  score : ℚ
deriving DecidableEq

/-- The validator oracle: `(name, description, category, location) ↦ verdict`. -/
abbrev Validator := String → String → String → Option String → PoiValidationResult

/-- One callback the scraper performed while visiting a page. -/
inductive ScrapeEvent where
  | registerPoi (poi : PoiData)
  | registerLink (url : String) (score : ℚ)
deriving DecidableEq

/-- Outcome of one scraper invocation: the callbacks it performed, in order,
and whether it afterwards raised an exception. -/
structure ScrapeResult where
  events : List ScrapeEvent
  raises : Bool
deriving DecidableEq

/-- The scraper oracle.  Its first argument is the history of previous
invocations `(url, succeeded)`, so a scraper may behave differently when a URL
is retried. -/
abbrev Scraper := List (String × Bool) → String → ScrapeResult

/-- The state of `PoiManager` (poi_manager.py, `__init__`), plus the ghost
`trace` of scraper invocations. -/
structure PoiManager where
  base_url : String
  base_domain : String
  visited_urls : List String
  url_queue : List ScoredURL
  poi_list : List (String × PoiEntry)
  all_links_with_scores : List (String × ℚ)
  current_url_links_with_scores : List (String × ℚ)
  trace : List (String × Bool)
deriving DecidableEq

/-- `PoiManager.__init__`: `base_domain = urlparse(base_url).netloc`, all
containers empty. -/
def PoiManager.init (base_url : String) : PoiManager :=
  { base_url := base_url
    base_domain := urlparse_netloc base_url
    visited_urls := []
    url_queue := []
    poi_list := []
    all_links_with_scores := []
    current_url_links_with_scores := []
    trace := [] }

/-- Python dict assignment `d[k] = v`: replace in place when the key exists,
append otherwise. -/
def dictInsert : List (String × PoiEntry) → String → PoiEntry → List (String × PoiEntry)
  | [], k, v => [(k, v)]
  | kv :: t, k, v => if kv.1 = k then (k, v) :: t else kv :: dictInsert t k v

/-- Python dict lookup `d[k]`. -/
def dictLookup : List (String × PoiEntry) → String → Option PoiEntry
  | [], _ => none
  | kv :: t, k => if kv.1 = k then some kv.2 else dictLookup t k

/-- Python `str(x)` for `Optional[str]`, as used by the f-string in
`register_poi`. -/
def pyOptStr : Option String → String
  | none => "None"
  | some s => s

/-- `PoiManager.register_poi`: validate, reject without touching state, or
upsert into `poi_list`. -/
def register_poi (validate : Validator) (m : PoiManager) (poi : PoiData) :
    PoiManager × String :=
  let result := validate poi.name poi.description poi.category poi.location
  if result.is_valid = false then
    (m, "POI validation failed for: ('" ++ poi.name ++ "', '" ++ poi.description ++ "')")
  else
    ({ m with
        poi_list := dictInsert m.poi_list poi.name
          (PoiEntry.mk poi.description poi.category poi.location) },
      "POI registered: " ++ poi.name ++ ", Category: " ++ poi.category ++
        ", Location: " ++ pyOptStr poi.location)

/-- `PoiManager.register_link`: unconditionally append to the link log. -/
def register_link (m : PoiManager) (url : String) (score : ℚ) :
    PoiManager × String :=
  ({ m with all_links_with_scores := m.all_links_with_scores ++ [(url, score)] },
   "Link registered: " ++ url ++ ", AI score: " ++ toString score)

/-- `PoiManager._should_process_url`. -/
def _should_process_url (m : PoiManager) (url : String) : Bool :=
  if url ∈ m.visited_urls then false
  else urlparse_netloc url == m.base_domain

/-- `PoiManager._calculate_depth_score`:
`depth = len(urlparse(url).path.split("/")) - 1`, then the step table. -/
def _calculate_depth_score (url : String) : ℚ :=
  let depth := (pySplitSlash (urlparse_path url).data).length - 1
  if depth = 0 then 0.0
  else if depth = 1 then 0.3
  else if depth = 2 then 0.5
  else if depth = 3 then 0.7
  else 0.9

/-- `PoiManager._calculate_final_score`. -/
def _calculate_final_score (ai_score : ℚ) (depth_score : ℚ) : ℚ :=
  ai_score * 0.4 + depth_score * 0.6

/-- `PoiManager._add_to_queue`: `PriorityQueue.put`, kept as an append to an
insertion-ordered list. -/
def _add_to_queue (m : PoiManager) (url : String) (score : ℚ) : PoiManager :=
  { m with url_queue := m.url_queue ++ [ScoredURL.mk url score] }

/-- Loop body of `PoiManager._process_new_urls` for one `(url, ai_score)`
pair. -/
def pushStep (acc : PoiManager) (p : String × ℚ) : PoiManager :=
  if p.2 < 0.5 then acc
  else if _should_process_url acc p.1 then
    _add_to_queue acc p.1 (_calculate_final_score p.2 (_calculate_depth_score p.1))
  else acc

/-- `PoiManager._process_new_urls`. -/
def _process_new_urls (m : PoiManager) : PoiManager :=
  m.current_url_links_with_scores.foldl pushStep m

/-- Python `list(set(now) - set(old))`: the elements of `now` not in `old`,
one copy each.  (The Python list order is unspecified; this model fixes the
order of first occurrence in `now`.) -/
def setDiffLinks (now old : List (String × ℚ)) : List (String × ℚ) :=
  (now.filter (fun p => decide (p ∉ old))).dedup

/-- Python `set.add` on the visited set, modelled on a duplicate-free list. -/
def addVisited (u : String) (v : List String) : List String :=
  if u ∈ v then v else v ++ [u]

/-- `queue.get()` on the modelled priority queue.

Modelled from the spec: the comparison method of `ScoredURL` is defined in
poi_types.py, which is outside the excerpted source; per the spec, "higher
`priority` is dequeued first" and "ties broken … deterministically by
insertion order is acceptable", so `popMax` removes the earliest entry of
maximal priority, and an empty queue yields `none` (a terminal signal, not an
error). -/
def popMax : List ScoredURL → Option (ScoredURL × List ScoredURL)
  | [] => none
  | x :: xs =>
      match popMax xs with
      | none => some (x, [])
      | some pr => if x.score < pr.1.score then some (pr.1, x :: pr.2) else some (x, xs)

/-- Apply one scraper callback to the manager (dropping the returned status
string, which the scraper consumes). -/
def applyEvent (validate : Validator) (m : PoiManager) : ScrapeEvent → PoiManager
  | .registerPoi poi => (register_poi validate m poi).1
  | .registerLink url score => (register_link m url score).1

/-- Apply the callbacks of one scraper invocation in order. -/
def applyEvents (validate : Validator) (m : PoiManager) (es : List ScrapeEvent) :
    PoiManager :=
  es.foldl (applyEvent validate) m

/-- One iteration of the `while` loop in `PoiManager.process`.
`none` means the queue was empty, ending the loop.  When the scraper raises,
its callbacks so far have taken effect, the invocation is recorded in the
ghost trace, and everything after the `try` body's scrape call is skipped
(`except Exception: continue`). -/
def processStep (validate : Validator) (scraper : Scraper) (m : PoiManager) :
    Option PoiManager :=
  match popMax m.url_queue with
  | none => none
  | some pr =>
      let current_url := pr.1.url
      let m0 := { m with url_queue := pr.2 }
      if current_url ∈ m0.visited_urls then some m0
      else
        let result := scraper m0.trace current_url
        let m1 := applyEvents validate m0 result.events
        let m2 := { m1 with trace := m1.trace ++ [(current_url, !result.raises)] }
        if result.raises then some m2
        else
          let m3 := { m2 with
            current_url_links_with_scores :=
              setDiffLinks m2.all_links_with_scores m2.current_url_links_with_scores }
          let m4 := _process_new_urls m3
          some { m4 with visited_urls := addVisited current_url m4.visited_urls }

/-- The `while` loop of `PoiManager.process`, with explicit fuel; the loop
stops by itself when the queue empties. -/
def processLoop (validate : Validator) (scraper : Scraper) :
    Nat → PoiManager → PoiManager
  | 0, m => m
  | fuel + 1, m =>
      match processStep validate scraper m with
      | none => m
      | some m2 => processLoop validate scraper fuel m2

/-- `PoiManager.process`: push the base URL with priority 1.0, run the loop,
return `poi_list`. -/
def process (validate : Validator) (scraper : Scraper) (fuel : Nat)
    (m : PoiManager) : List (String × PoiEntry) :=
  (processLoop validate scraper fuel (_add_to_queue m m.base_url 1.0)).poi_list

/-- A freshly constructed manager with its seed pushed: the state at the top
of the first loop iteration of `process`. -/
def seedState (base : String) : PoiManager :=
  _add_to_queue (PoiManager.init base) base 1.0

/-! ## Infrastructure lemmas -/

theorem popMax_eq_none_iff (q : List ScoredURL) : popMax q = none ↔ q = [] := by
  cases q with
  | nil => simp [popMax]
  | cons x xs =>
      simp only [popMax]
      cases h : popMax xs with
      | none => simp
      | some pr => by_cases hlt : x.score < pr.1.score <;> simp [hlt]

theorem popMax_spec (q : List ScoredURL) (su : ScoredURL) (rest : List ScoredURL)
    (h : popMax q = some (su, rest)) :
    su ∈ q ∧ (∀ x ∈ q, x.score ≤ su.score) ∧ q.Perm (su :: rest) := by
  induction q generalizing su rest with
  | nil => simp [popMax] at h
  | cons x xs ih =>
      simp only [popMax] at h
      cases hx : popMax xs with
      | none =>
          rw [hx] at h
          have hxs : xs = [] := (popMax_eq_none_iff xs).mp hx
          simp only [Option.some.injEq, Prod.mk.injEq] at h
          obtain ⟨rfl, rfl⟩ := h
          subst hxs
          exact ⟨by simp, by simp, by simp⟩
      | some pr =>
          obtain ⟨y, ys⟩ := pr
          rw [hx] at h
          dsimp only at h
          obtain ⟨hmem, hmax, hperm⟩ := ih y ys hx
          by_cases hlt : x.score < y.score
          · rw [if_pos hlt] at h
            simp only [Option.some.injEq, Prod.mk.injEq] at h
            obtain ⟨rfl, rfl⟩ := h
            refine ⟨List.mem_cons_of_mem _ hmem, ?_, ?_⟩
            · intro z hz
              rcases List.mem_cons.mp hz with rfl | hz
              · exact le_of_lt hlt
              · exact hmax z hz
            · exact (List.Perm.cons x hperm).trans (List.Perm.swap _ _ _)
          · rw [if_neg hlt] at h
            simp only [Option.some.injEq, Prod.mk.injEq] at h
            obtain ⟨rfl, rfl⟩ := h
            refine ⟨List.mem_cons_self _ _, ?_, List.Perm.refl _⟩
            intro z hz
            rcases List.mem_cons.mp hz with rfl | hz
            · exact le_refl _
            · exact le_trans (hmax z hz) (le_of_not_lt hlt)

theorem processLoop_of_empty (validate : Validator) (scraper : Scraper)
    (fuel : Nat) (m : PoiManager) (h : m.url_queue = []) :
    processLoop validate scraper fuel m = m := by
  cases fuel with
  | zero => rfl
  | succ n =>
      simp only [processLoop, processStep, h, popMax]

theorem processLoop_inv (validate : Validator) (scraper : Scraper)
    (P : PoiManager → Prop)
    (hstep : ∀ m m2, processStep validate scraper m = some m2 → P m → P m2) :
    ∀ fuel m, P m → P (processLoop validate scraper fuel m) := by
  intro fuel
  induction fuel with
  | zero => intro m hm; exact hm
  | succ n ih =>
      intro m hm
      simp only [processLoop]
      cases h : processStep validate scraper m with
      | none => exact hm
      | some m2 => exact ih m2 (hstep m m2 h hm)

theorem applyEvent_preserves (validate : Validator) (m : PoiManager) (e : ScrapeEvent) :
    (applyEvent validate m e).base_url = m.base_url ∧
    (applyEvent validate m e).base_domain = m.base_domain ∧
    (applyEvent validate m e).visited_urls = m.visited_urls ∧
    (applyEvent validate m e).url_queue = m.url_queue ∧
    (applyEvent validate m e).current_url_links_with_scores =
      m.current_url_links_with_scores ∧
    (applyEvent validate m e).trace = m.trace := by
  cases e with
  | registerPoi poi =>
      simp only [applyEvent, register_poi]
      split <;> simp
  | registerLink url score => simp [applyEvent, register_link]

theorem applyEvents_preserves (validate : Validator) (es : List ScrapeEvent)
    (m : PoiManager) :
    (applyEvents validate m es).base_url = m.base_url ∧
    (applyEvents validate m es).base_domain = m.base_domain ∧
    (applyEvents validate m es).visited_urls = m.visited_urls ∧
    (applyEvents validate m es).url_queue = m.url_queue ∧
    (applyEvents validate m es).current_url_links_with_scores =
      m.current_url_links_with_scores ∧
    (applyEvents validate m es).trace = m.trace := by
  induction es generalizing m with
  | nil => simp [applyEvents]
  | cons e es ih =>
      have h1 := applyEvent_preserves validate m e
      have h2 := ih (applyEvent validate m e)
      simp only [applyEvents, List.foldl_cons] at h2 ⊢
      exact ⟨h2.1.trans h1.1, h2.2.1.trans h1.2.1, h2.2.2.1.trans h1.2.2.1,
        h2.2.2.2.1.trans h1.2.2.2.1, h2.2.2.2.2.1.trans h1.2.2.2.2.1,
        h2.2.2.2.2.2.trans h1.2.2.2.2.2⟩

theorem applyEvent_log (validate : Validator) (m : PoiManager) (e : ScrapeEvent) :
    ∃ t, (applyEvent validate m e).all_links_with_scores =
      m.all_links_with_scores ++ t := by
  cases e with
  | registerPoi poi =>
      refine ⟨[], ?_⟩
      simp only [applyEvent, register_poi]
      split <;> simp
  | registerLink url score => exact ⟨[(url, score)], by simp [applyEvent, register_link]⟩

theorem applyEvents_log (validate : Validator) (es : List ScrapeEvent)
    (m : PoiManager) :
    ∃ t, (applyEvents validate m es).all_links_with_scores =
      m.all_links_with_scores ++ t := by
  induction es generalizing m with
  | nil => exact ⟨[], by simp [applyEvents]⟩
  | cons e es ih =>
      obtain ⟨t1, h1⟩ := applyEvent_log validate m e
      obtain ⟨t2, h2⟩ := ih (applyEvent validate m e)
      refine ⟨t1 ++ t2, ?_⟩
      simp only [applyEvents, List.foldl_cons] at h2 ⊢
      rw [h2, h1, List.append_assoc]

/-- The admission test of `_process_new_urls` for one `(url, score)` pair,
factored through the only fields of the accumulator it reads. -/
def admissible (visited : List String) (dom : String) (p : String × ℚ) : Bool :=
  if p.2 < 0.5 then false
  else if p.1 ∈ visited then false
  else urlparse_netloc p.1 == dom

/-- The frontier entries `_process_new_urls` appends for a list of newly
reported pairs. -/
def pushedOf (visited : List String) (dom : String) (l : List (String × ℚ)) :
    List ScoredURL :=
  l.filterMap (fun p =>
    if admissible visited dom p then
      some (ScoredURL.mk p.1 (_calculate_final_score p.2 (_calculate_depth_score p.1)))
    else none)

theorem foldl_pushStep_eq (l : List (String × ℚ)) (acc : PoiManager) :
    l.foldl pushStep acc =
      { acc with url_queue :=
          acc.url_queue ++ pushedOf acc.visited_urls acc.base_domain l } := by
  induction l generalizing acc with
  | nil => simp [pushedOf]
  | cons p l ih =>
      simp only [List.foldl_cons]
      by_cases hlt : p.2 < 0.5
      · have hstep : pushStep acc p = acc := by simp [pushStep, hlt]
        have hadm : admissible acc.visited_urls acc.base_domain p = false := by
          simp [admissible, hlt]
        rw [hstep, ih]
        simp [pushedOf, hadm]
      · by_cases hsp : _should_process_url acc p.1
        · have hstep : pushStep acc p =
              { acc with url_queue := acc.url_queue ++
                [ScoredURL.mk p.1
                  (_calculate_final_score p.2 (_calculate_depth_score p.1))] } := by
            simp [pushStep, hlt, hsp, _add_to_queue]
          have hadm : admissible acc.visited_urls acc.base_domain p = true := by
            simp only [_should_process_url] at hsp
            simp only [admissible, hlt, if_false]
            split at hsp
            · exact absurd hsp (by simp)
            · simp_all
          rw [hstep, ih]
          simp [pushedOf, hadm, List.filterMap_cons]
        · have hstep : pushStep acc p = acc := by simp [pushStep, hlt, hsp]
          have hadm : admissible acc.visited_urls acc.base_domain p = false := by
            simp only [_should_process_url] at hsp
            simp only [admissible, hlt, if_false]
            split at hsp
            · simp_all
            · simp_all
          rw [hstep, ih]
          simp [pushedOf, hadm]

theorem _process_new_urls_eq (m : PoiManager) :
    _process_new_urls m =
      { m with url_queue := m.url_queue ++
          pushedOf m.visited_urls m.base_domain m.current_url_links_with_scores } :=
  foldl_pushStep_eq _ m

/-- The manager after a loop iteration whose scrape raised: callbacks applied,
invocation recorded, everything else skipped. -/
def failState (validate : Validator) (scraper : Scraper) (m : PoiManager)
    (su : ScoredURL) (rest : List ScoredURL) : PoiManager :=
  let m1 := applyEvents validate { m with url_queue := rest }
    (scraper m.trace su.url).events
  { m1 with trace := m1.trace ++ [(su.url, false)] }

/-- The manager after a successful loop iteration. -/
def successState (validate : Validator) (scraper : Scraper) (m : PoiManager)
    (su : ScoredURL) (rest : List ScoredURL) : PoiManager :=
  let m1 := applyEvents validate { m with url_queue := rest }
    (scraper m.trace su.url).events
  let m2 := { m1 with trace := m1.trace ++ [(su.url, true)] }
  let m3 := { m2 with
    current_url_links_with_scores :=
      setDiffLinks m2.all_links_with_scores m2.current_url_links_with_scores }
  let m4 := _process_new_urls m3
  { m4 with visited_urls := addVisited su.url m4.visited_urls }

theorem processStep_visited (validate : Validator) (scraper : Scraper)
    (m : PoiManager) (su : ScoredURL) (rest : List ScoredURL)
    (hpop : popMax m.url_queue = some (su, rest))
    (hv : su.url ∈ m.visited_urls) :
    processStep validate scraper m = some { m with url_queue := rest } := by
  simp only [processStep, hpop]
  rw [if_pos hv]

theorem processStep_fail (validate : Validator) (scraper : Scraper)
    (m : PoiManager) (su : ScoredURL) (rest : List ScoredURL)
    (hpop : popMax m.url_queue = some (su, rest))
    (hnv : su.url ∉ m.visited_urls)
    (hr : (scraper m.trace su.url).raises = true) :
    processStep validate scraper m = some (failState validate scraper m su rest) := by
  simp only [processStep, hpop]
  rw [if_neg hnv]
  simp only [hr, if_true, Bool.not_true, failState]

theorem processStep_success (validate : Validator) (scraper : Scraper)
    (m : PoiManager) (su : ScoredURL) (rest : List ScoredURL)
    (hpop : popMax m.url_queue = some (su, rest))
    (hnv : su.url ∉ m.visited_urls)
    (hr : (scraper m.trace su.url).raises = false) :
    processStep validate scraper m =
      some (successState validate scraper m su rest) := by
  simp only [processStep, hpop]
  rw [if_neg hnv, hr]
  rfl

theorem processStep_shape (validate : Validator) (scraper : Scraper)
    (m m2 : PoiManager) (h : processStep validate scraper m = some m2) :
    ∃ su rest, popMax m.url_queue = some (su, rest) ∧
      ((su.url ∈ m.visited_urls ∧ m2 = { m with url_queue := rest }) ∨
       (su.url ∉ m.visited_urls ∧ (scraper m.trace su.url).raises = true ∧
         m2 = failState validate scraper m su rest) ∨
       (su.url ∉ m.visited_urls ∧ (scraper m.trace su.url).raises = false ∧
         m2 = successState validate scraper m su rest)) := by
  cases hpop : popMax m.url_queue with
  | none => simp [processStep, hpop] at h
  | some pr =>
      obtain ⟨su, rest⟩ := pr
      refine ⟨su, rest, rfl, ?_⟩
      by_cases hv : su.url ∈ m.visited_urls
      · left
        rw [processStep_visited validate scraper m su rest hpop hv] at h
        exact ⟨hv, (Option.some.injEq .. ▸ h).symm⟩
      · cases hr : (scraper m.trace su.url).raises with
        | true =>
            right; left
            rw [processStep_fail validate scraper m su rest hpop hv hr] at h
            exact ⟨hv, rfl, (Option.some.injEq .. ▸ h).symm⟩
        | false =>
            right; right
            rw [processStep_success validate scraper m su rest hpop hv hr] at h
            exact ⟨hv, rfl, (Option.some.injEq .. ▸ h).symm⟩

theorem mem_setDiffLinks (now old : List (String × ℚ)) (p : String × ℚ) :
    p ∈ setDiffLinks now old ↔ p ∈ now ∧ p ∉ old := by
  simp [setDiffLinks, List.mem_dedup, List.mem_filter]

theorem setDiffLinks_nodup (now old : List (String × ℚ)) :
    (setDiffLinks now old).Nodup :=
  List.nodup_dedup _

theorem mem_addVisited (u c : String) (v : List String) :
    u ∈ addVisited c v ↔ u = c ∨ u ∈ v := by
  by_cases h : c ∈ v
  · simp only [addVisited, if_pos h]
    constructor
    · exact Or.inr
    · rintro (rfl | hu)
      · exact h
      · exact hu
  · simp [addVisited, if_neg h, or_comm]

/-- The manager right after the scrape callbacks of an iteration popping `su`
have been applied. -/
def afterEvents (validate : Validator) (scraper : Scraper) (m : PoiManager)
    (su : ScoredURL) (rest : List ScoredURL) : PoiManager :=
  applyEvents validate { m with url_queue := rest } (scraper m.trace su.url).events

theorem failState_proj (validate : Validator) (scraper : Scraper)
    (m : PoiManager) (su : ScoredURL) (rest : List ScoredURL) :
    (failState validate scraper m su rest).base_url = m.base_url ∧
    (failState validate scraper m su rest).base_domain = m.base_domain ∧
    (failState validate scraper m su rest).visited_urls = m.visited_urls ∧
    (failState validate scraper m su rest).url_queue = rest ∧
    (failState validate scraper m su rest).poi_list =
      (afterEvents validate scraper m su rest).poi_list ∧
    (failState validate scraper m su rest).all_links_with_scores =
      (afterEvents validate scraper m su rest).all_links_with_scores ∧
    (failState validate scraper m su rest).current_url_links_with_scores =
      m.current_url_links_with_scores ∧
    (failState validate scraper m su rest).trace =
      m.trace ++ [(su.url, false)] := by
  obtain ⟨h1, h2, h3, h4, h5, h6⟩ := applyEvents_preserves validate
    (scraper m.trace su.url).events { m with url_queue := rest }
  simp only [failState, afterEvents]
  exact ⟨h1, h2, h3, h4, trivial, trivial, h5, by rw [h6]⟩

theorem successState_proj (validate : Validator) (scraper : Scraper)
    (m : PoiManager) (su : ScoredURL) (rest : List ScoredURL) :
    (successState validate scraper m su rest).base_url = m.base_url ∧
    (successState validate scraper m su rest).base_domain = m.base_domain ∧
    (successState validate scraper m su rest).visited_urls =
      addVisited su.url m.visited_urls ∧
    (successState validate scraper m su rest).url_queue =
      rest ++ pushedOf m.visited_urls m.base_domain
        (setDiffLinks (afterEvents validate scraper m su rest).all_links_with_scores
          m.current_url_links_with_scores) ∧
    (successState validate scraper m su rest).poi_list =
      (afterEvents validate scraper m su rest).poi_list ∧
    (successState validate scraper m su rest).all_links_with_scores =
      (afterEvents validate scraper m su rest).all_links_with_scores ∧
    (successState validate scraper m su rest).current_url_links_with_scores =
      setDiffLinks (afterEvents validate scraper m su rest).all_links_with_scores
        m.current_url_links_with_scores ∧
    (successState validate scraper m su rest).trace =
      m.trace ++ [(su.url, true)] := by
  obtain ⟨h1, h2, h3, h4, h5, h6⟩ := applyEvents_preserves validate
    (scraper m.trace su.url).events { m with url_queue := rest }
  simp only [successState, afterEvents, _process_new_urls_eq]
  refine ⟨h1, h2, ?_, ?_, trivial, trivial, by rw [h5], by rw [h6]⟩
  · rw [h3]
  · rw [h3, h2, h4, h5]

theorem dictLookup_dictInsert_self (l : List (String × PoiEntry)) (k : String)
    (v : PoiEntry) : dictLookup (dictInsert l k v) k = some v := by
  induction l with
  | nil => simp [dictInsert, dictLookup]
  | cons kv t ih =>
      by_cases h : kv.1 = k
      · simp [dictInsert, dictLookup, h]
      · simp [dictInsert, dictLookup, h, ih]

theorem dictLookup_dictInsert_other (l : List (String × PoiEntry)) (k n : String)
    (v : PoiEntry) (hn : n ≠ k) :
    dictLookup (dictInsert l k v) n = dictLookup l n := by
  induction l with
  | nil => simp [dictInsert, dictLookup, Ne.symm hn]
  | cons kv t ih =>
      by_cases h : kv.1 = k
      · subst h
        simp [dictInsert, dictLookup, hn, Ne.symm hn]
      · simp only [dictInsert, if_neg h]
        by_cases h2 : kv.1 = n
        · simp [dictLookup, h2]
        · simp [dictLookup, h2, ih]

theorem mem_dictInsert (l : List (String × PoiEntry)) (k : String) (v : PoiEntry)
    (q : String × PoiEntry) (h : q ∈ dictInsert l k v) : q = (k, v) ∨ q ∈ l := by
  induction l with
  | nil => simpa [dictInsert] using h
  | cons kv t ih =>
      by_cases hk : kv.1 = k
      · rw [dictInsert, if_pos hk] at h
        rcases List.mem_cons.mp h with rfl | h
        · exact Or.inl rfl
        · exact Or.inr (List.mem_cons_of_mem _ h)
      · rw [dictInsert, if_neg hk] at h
        rcases List.mem_cons.mp h with rfl | h
        · exact Or.inr (List.mem_cons_self _ _)
        · rcases ih h with h | h
          · exact Or.inl h
          · exact Or.inr (List.mem_cons_of_mem _ h)

/-- Every registry entry was admitted by a `is_valid = true` verdict of the
given validator on some candidate carrying that entry's data. -/
def registryOnlyValid (validate : Validator) (l : List (String × PoiEntry)) : Prop :=
  ∀ q ∈ l, ∃ poi : PoiData, poi.name = q.1 ∧
    (validate poi.name poi.description poi.category poi.location).is_valid = true ∧
    q.2 = PoiEntry.mk poi.description poi.category poi.location

theorem registryOnlyValid_register_poi (validate : Validator) (m : PoiManager)
    (poi : PoiData) (h : registryOnlyValid validate m.poi_list) :
    registryOnlyValid validate (register_poi validate m poi).1.poi_list := by
  unfold register_poi
  cases hval : (validate poi.name poi.description poi.category poi.location).is_valid with
  | false => simpa [hval] using h
  | true =>
      simp only [hval, Bool.true_eq_false, if_false]
      intro q hq
      rcases mem_dictInsert _ _ _ _ hq with rfl | hq
      · exact ⟨poi, rfl, hval, rfl⟩
      · exact h q hq

theorem registryOnlyValid_applyEvent (validate : Validator) (m : PoiManager)
    (e : ScrapeEvent) (h : registryOnlyValid validate m.poi_list) :
    registryOnlyValid validate (applyEvent validate m e).poi_list := by
  cases e with
  | registerPoi poi => exact registryOnlyValid_register_poi validate m poi h
  | registerLink url score => simpa [applyEvent, register_link] using h

theorem registryOnlyValid_applyEvents (validate : Validator)
    (es : List ScrapeEvent) (m : PoiManager)
    (h : registryOnlyValid validate m.poi_list) :
    registryOnlyValid validate (applyEvents validate m es).poi_list := by
  induction es generalizing m with
  | nil => exact h
  | cons e es ih =>
      simp only [applyEvents, List.foldl_cons] at ih ⊢
      exact ih (applyEvent validate m e) (registryOnlyValid_applyEvent validate m e h)

theorem registryOnlyValid_step (validate : Validator) (scraper : Scraper)
    (m m2 : PoiManager) (hstep : processStep validate scraper m = some m2)
    (h : registryOnlyValid validate m.poi_list) :
    registryOnlyValid validate m2.poi_list := by
  obtain ⟨su, rest, hpop, hcase⟩ := processStep_shape validate scraper m m2 hstep
  rcases hcase with ⟨_, rfl⟩ | ⟨_, _, rfl⟩ | ⟨_, _, rfl⟩
  · exact h
  · rw [(failState_proj validate scraper m su rest).2.2.2.2.1]
    exact registryOnlyValid_applyEvents validate _ _ h
  · rw [(successState_proj validate scraper m su rest).2.2.2.2.1]
    exact registryOnlyValid_applyEvents validate _ _ h

theorem registryOnlyValid_loop (validate : Validator) (scraper : Scraper)
    (fuel : Nat) (m : PoiManager) (h : registryOnlyValid validate m.poi_list) :
    registryOnlyValid validate (processLoop validate scraper fuel m).poi_list :=
  processLoop_inv validate scraper
    (fun m => registryOnlyValid validate m.poi_list)
    (fun m m2 hs hm => registryOnlyValid_step validate scraper m m2 hs hm)
    fuel m h

/-- Number of successful scraper invocations of `u` recorded in a trace. -/
def countSuccess (tr : List (String × Bool)) (u : String) : Nat :=
  (tr.filter (fun t => t.1 == u && t.2)).length

/-- The ghost-trace invariant: a URL has been successfully scraped exactly
once when it is visited, and never otherwise. -/
def TraceInv (m : PoiManager) : Prop :=
  ∀ u, countSuccess m.trace u = if u ∈ m.visited_urls then 1 else 0

theorem countSuccess_append (tr : List (String × Bool)) (c : String) (b : Bool)
    (u : String) :
    countSuccess (tr ++ [(c, b)]) u =
      countSuccess tr u + (if u = c ∧ b = true then 1 else 0) := by
  simp only [countSuccess, List.filter_append, List.length_append]
  by_cases h : u = c ∧ b = true
  · obtain ⟨rfl, rfl⟩ := h
    simp
  · have : ¬ (c == u && b) = true := by
      intro hb
      simp only [Bool.and_eq_true, beq_iff_eq] at hb
      exact h ⟨hb.1.symm, hb.2⟩
    simp [List.filter, this, h]

theorem traceInv_step (validate : Validator) (scraper : Scraper)
    (m m2 : PoiManager) (hstep : processStep validate scraper m = some m2)
    (h : TraceInv m) : TraceInv m2 := by
  obtain ⟨su, rest, hpop, hcase⟩ := processStep_shape validate scraper m m2 hstep
  rcases hcase with ⟨hv, rfl⟩ | ⟨hv, _, rfl⟩ | ⟨hv, _, rfl⟩
  · exact h
  · intro u
    obtain ⟨_, _, hvis, _, _, _, _, htr⟩ := failState_proj validate scraper m su rest
    rw [htr, hvis, countSuccess_append]
    simp [h u]
  · intro u
    obtain ⟨_, _, hvis, _, _, _, _, htr⟩ := successState_proj validate scraper m su rest
    rw [htr, hvis, countSuccess_append]
    by_cases hu : u = su.url
    · subst hu
      rw [h su.url]
      simp [hv, mem_addVisited]
    · rw [h u]
      simp [hu, mem_addVisited]

/-! ## Claims -/

/-- The depth-to-base-score table exactly as the spec words it. -/
def specDepthBase : Nat → ℚ
  | 0 => 0.0
  | 1 => 0.3
  | 2 => 0.5
  | 3 => 0.7
  | _ => 0.9

/-- The spec's depth notion: the count of non-empty path segments of the
URL. -/
def nonemptySegmentCount (url : String) : Nat :=
  ((pySplitSlash (urlparse_path url).data).filter (fun seg => decide (seg ≠ []))).length

/-- The count of `/` characters in the parsed path. -/
def pathSlashCount (url : String) : Nat := (urlparse_path url).data.count '/'

theorem pySplitSlash_ne_nil (l : List Char) : pySplitSlash l ≠ [] := by
  cases l with
  | nil => simp [pySplitSlash]
  | cons c cs =>
      simp only [pySplitSlash]
      cases h : pySplitSlash cs with
      | nil => simp
      | cons hd t =>
          by_cases hc : c == '/' <;> simp [hc]

theorem pySplitSlash_length (l : List Char) :
    (pySplitSlash l).length = l.count '/' + 1 := by
  induction l with
  | nil => simp [pySplitSlash]
  | cons c cs ih =>
      simp only [pySplitSlash]
      cases h : pySplitSlash cs with
      | nil => exact absurd h (pySplitSlash_ne_nil cs)
      | cons hd t =>
          rw [h] at ih
          by_cases hc : c = '/'
          · subst hc
            simp only [List.count_cons, beq_self_eq_true, if_true]
            simp only [List.length_cons] at ih ⊢
            simp [ih]
          · have : (c == '/') = false := by simp [hc]
            simp only [this, if_false, List.count_cons]
            simp only [List.length_cons] at ih ⊢
            simp [ih, this]

/-- C4 (amended): the depth `_calculate_depth_score` uses is the number of
`/` characters in the parsed path — the segment count including empty
segments, `len(path.split("/")) - 1` — not the count of non-empty segments;
that number is mapped through 0→0.0, 1→0.3, 2→0.5, 3→0.7, ≥4→0.9, and the
score depends on the URL only through its parsed path. -/
theorem C4_depth_score (url : String) :
    _calculate_depth_score url = specDepthBase (pathSlashCount url) := by
  unfold _calculate_depth_score pathSlashCount
  rw [pySplitSlash_length]
  simp only [Nat.add_sub_cancel]
  rcases h : (urlparse_path url).data.count '/' with _ | _ | _ | _ | n <;>
    simp [specDepthBase]

/-- C4, counterexample to the claim as stated: `"https://example.com/"` has
zero non-empty path segments, so the claim requires base score 0.0, but the
code computes depth `len("/".split("/")) - 1 = 1` and returns 0.3. -/
theorem C4_counterexample :
    _calculate_depth_score "https://example.com/" ≠
      specDepthBase (nonemptySegmentCount "https://example.com/") := by
  with_unfolding_all decide

/-- C5: the frontier pop removes and returns an entry of maximal priority
among the queued entries (so the seed pushed at 1.0 is dequeued before any
lower-priority link), removal takes exactly that one entry, and an empty
queue is a terminal signal — `popMax` yields `none` and the crawl loop
returns the state unchanged instead of raising. -/
theorem C5_frontier_pop (q : List ScoredURL) :
    (∀ su rest, popMax q = some (su, rest) →
      su ∈ q ∧ (∀ x ∈ q, x.score ≤ su.score) ∧ q.Perm (su :: rest)) ∧
    (q = [] → popMax q = none) ∧
    (∀ validate scraper fuel m, m.url_queue = [] →
      processLoop validate scraper fuel m = m) :=
  ⟨fun su rest h => popMax_spec q su rest h,
   fun h => by rw [h]; rfl,
   fun validate scraper fuel m h => processLoop_of_empty validate scraper fuel m h⟩

/-- C5, witness: on the queue `[("https://a", 1.0), ("https://b", 0.5)]` the
pop returns the seed entry of priority 1.0 and leaves the other entry. -/
theorem C5_witness :
    ScoredURL.mk "https://a" 1.0 ∈
        [ScoredURL.mk "https://a" 1.0, ScoredURL.mk "https://b" 0.5] ∧
    (∀ x ∈ [ScoredURL.mk "https://a" 1.0, ScoredURL.mk "https://b" 0.5],
        x.score ≤ (ScoredURL.mk "https://a" 1.0).score) ∧
    ([ScoredURL.mk "https://a" 1.0, ScoredURL.mk "https://b" 0.5]).Perm
        (ScoredURL.mk "https://a" 1.0 :: [ScoredURL.mk "https://b" 0.5]) :=
  (C5_frontier_pop [ScoredURL.mk "https://a" 1.0, ScoredURL.mk "https://b" 0.5]).1
    _ _ (by with_unfolding_all decide)

theorem admissible_iff (visited : List String) (dom : String) (p : String × ℚ) :
    admissible visited dom p = true ↔
      (0.5 : ℚ) ≤ p.2 ∧ p.1 ∉ visited ∧ urlparse_netloc p.1 = dom := by
  unfold admissible
  by_cases h1 : p.2 < 0.5
  · simp [h1, not_le.mpr h1]
  · by_cases h2 : p.1 ∈ visited
    · simp [h1, h2]
    · simp [h1, h2, not_lt.mp h1]

theorem mem_pushedOf (visited : List String) (dom : String)
    (l : List (String × ℚ)) (e : ScoredURL) :
    e ∈ pushedOf visited dom l ↔
      ∃ p ∈ l, admissible visited dom p = true ∧
        e = ScoredURL.mk p.1 (_calculate_final_score p.2 (_calculate_depth_score p.1)) := by
  simp only [pushedOf, List.mem_filterMap]
  constructor
  · rintro ⟨p, hp, hf⟩
    by_cases h : admissible visited dom p = true
    · rw [if_pos h] at hf
      exact ⟨p, hp, h, (Option.some.injEq .. ▸ hf).symm⟩
    · rw [if_neg h] at hf
      exact absurd hf (by simp)
  · rintro ⟨p, hp, h, rfl⟩
    exact ⟨p, hp, by rw [if_pos h]⟩

/-- C6: during new-link processing, a link whose parsed host differs from the
manager's base domain is never pushed: every queue entry with that URL was
already in the queue before.  At construction the base domain is exactly the
seed URL's parsed host. -/
theorem C6_domain_filter (m : PoiManager) (u : String)
    (hdom : urlparse_netloc u ≠ m.base_domain) :
    (∀ e ∈ (_process_new_urls m).url_queue, e.url = u → e ∈ m.url_queue) ∧
    (∀ base : String, (PoiManager.init base).base_domain = urlparse_netloc base) := by
  refine ⟨?_, fun base => rfl⟩
  intro e he heu
  rw [_process_new_urls_eq] at he
  rcases List.mem_append.mp he with h | h
  · exact h
  · exfalso
    obtain ⟨p, _, hadm, rfl⟩ := (mem_pushedOf _ _ _ _).mp h
    obtain ⟨_, _, hd⟩ := (admissible_iff _ _ _).mp hadm
    exact hdom (heu ▸ hd)

/-- C6, witness: with base domain `d` and the newly reported cross-domain
link `("http://other/x", 1.0)` (relevance 1.0, depth 1), no entry for that
URL is pushed. -/
theorem C6_witness :
    (∀ e ∈ (_process_new_urls { PoiManager.init "http://d" with
        current_url_links_with_scores := [("http://other/x", 1.0)] }).url_queue,
      e.url = "http://other/x" →
        e ∈ ({ PoiManager.init "http://d" with
          current_url_links_with_scores := [("http://other/x", 1.0)] } :
            PoiManager).url_queue) ∧
    (∀ base : String, (PoiManager.init base).base_domain = urlparse_netloc base) :=
  C6_domain_filter _ "http://other/x" (by with_unfolding_all decide)

/-- C7: every entry `_process_new_urls` adds to the frontier originates from
a newly reported pair with relevance ≥ 0.5 (so a 0.49 report is never pushed)
and carries priority exactly `0.4·relevance + 0.6·depth_base`; conversely a
newly reported same-domain, unvisited pair with relevance ≥ 0.5 is pushed at
exactly that priority. -/
theorem C7_admission_and_priority (m : PoiManager) :
    (∀ e ∈ (_process_new_urls m).url_queue, e ∈ m.url_queue ∨
      ∃ p ∈ m.current_url_links_with_scores,
        e.url = p.1 ∧ (0.5 : ℚ) ≤ p.2 ∧
        e.score = p.2 * 0.4 + _calculate_depth_score p.1 * 0.6) ∧
    (∀ p ∈ m.current_url_links_with_scores, (0.5 : ℚ) ≤ p.2 →
      urlparse_netloc p.1 = m.base_domain → p.1 ∉ m.visited_urls →
      ScoredURL.mk p.1 (p.2 * 0.4 + _calculate_depth_score p.1 * 0.6) ∈
        (_process_new_urls m).url_queue) := by
  constructor
  · intro e he
    rw [_process_new_urls_eq] at he
    rcases List.mem_append.mp he with h | h
    · exact Or.inl h
    · right
      obtain ⟨p, hp, hadm, rfl⟩ := (mem_pushedOf _ _ _ _).mp h
      obtain ⟨hge, _, _⟩ := (admissible_iff _ _ _).mp hadm
      exact ⟨p, hp, rfl, hge, rfl⟩
  · intro p hp hge hd hnv
    rw [_process_new_urls_eq]
    refine List.mem_append.mpr (Or.inr ?_)
    rw [mem_pushedOf]
    exact ⟨p, hp, (admissible_iff _ _ _).mpr ⟨hge, hnv, hd⟩, rfl⟩

/-- C7, witness: the newly reported pair `("http://d/a/b", 0.5)` (same domain
`d`, depth 2) is pushed with priority `0.5·0.4 + 0.5·0.6 = 0.5`. -/
theorem C7_witness :
    ScoredURL.mk "http://d/a/b"
        ((0.5 : ℚ) * 0.4 + _calculate_depth_score "http://d/a/b" * 0.6) ∈
      (_process_new_urls { PoiManager.init "http://d" with
        current_url_links_with_scores := [("http://d/a/b", 0.5)] }).url_queue :=
  (C7_admission_and_priority _).2 ("http://d/a/b", 0.5)
    (by with_unfolding_all decide) (by with_unfolding_all decide)
    (by with_unfolding_all decide) (by with_unfolding_all decide)

/-- C3: with an `is_valid = false` verdict, `register_poi` returns the
rejection message naming the candidate and leaves the whole manager — in
particular `poi_list` — unchanged; with `is_valid = true` it upserts the
entry keyed by the candidate's name (other keys untouched); and over any
crawl the registry only ever holds entries admitted by an `is_valid = true`
verdict. -/
theorem C3_registry_gate (validate : Validator) (m : PoiManager) (poi : PoiData) :
    ((validate poi.name poi.description poi.category poi.location).is_valid = false →
      register_poi validate m poi =
        (m, "POI validation failed for: ('" ++ poi.name ++ "', '" ++
          poi.description ++ "')")) ∧
    ((validate poi.name poi.description poi.category poi.location).is_valid = true →
      dictLookup (register_poi validate m poi).1.poi_list poi.name =
        some (PoiEntry.mk poi.description poi.category poi.location) ∧
      (∀ n, n ≠ poi.name →
        dictLookup (register_poi validate m poi).1.poi_list n =
          dictLookup m.poi_list n)) ∧
    (∀ scraper base fuel,
      registryOnlyValid validate
        (processLoop validate scraper fuel (seedState base)).poi_list) := by
  refine ⟨?_, ?_, ?_⟩
  · intro h
    unfold register_poi
    rw [if_pos h]
  · intro h
    unfold register_poi
    rw [if_neg (by rw [h]; exact fun hc => Bool.true_eq_false ▸ hc ▸ rfl)]
    exact ⟨dictLookup_dictInsert_self _ _ _,
      fun n hn => dictLookup_dictInsert_other _ _ _ _ hn⟩
  · intro scraper base fuel
    refine registryOnlyValid_loop validate scraper fuel (seedState base) ?_
    intro q hq
    simp [seedState, _add_to_queue, PoiManager.init] at hq

/-- Validator used by concrete witnesses: accepts exactly the name
`"Beach"`. -/
def validatorW : Validator :=
  fun n d _ _ => PoiValidationResult.mk (n == "Beach") n d ""

/-- Candidate used by the C3 witness. -/
def poiW : PoiData := PoiData.mk "Beach" "A sandy beach" "Beach" none

/-- C3, witness: registering the valid candidate `"Beach"` stores its entry
under its name and leaves every other key unchanged. -/
theorem C3_witness :
    dictLookup (register_poi validatorW (PoiManager.init "http://d") poiW).1.poi_list
        poiW.name =
      some (PoiEntry.mk poiW.description poiW.category poiW.location) ∧
    (∀ n, n ≠ poiW.name →
      dictLookup (register_poi validatorW (PoiManager.init "http://d") poiW).1.poi_list n =
        dictLookup (PoiManager.init "http://d").poi_list n) :=
  (C3_registry_gate validatorW (PoiManager.init "http://d") poiW).2.1
    (by with_unfolding_all decide)

/-- C2: when the scrape of a popped, unvisited URL raises, the iteration
yields a successor state (the loop goes on): the URL is not marked visited,
the frontier holds exactly the remaining entries (nothing pushed), and the
pending-diff snapshot is untouched; moreover the loop body signals
termination (`none`) exactly on an empty frontier — an exception never ends
or escapes the crawl. -/
theorem C2_error_isolation (validate : Validator) (scraper : Scraper)
    (m : PoiManager) (su : ScoredURL) (rest : List ScoredURL)
    (hpop : popMax m.url_queue = some (su, rest))
    (hnv : su.url ∉ m.visited_urls)
    (hraise : (scraper m.trace su.url).raises = true) :
    (∃ m2, processStep validate scraper m = some m2 ∧
      m2.visited_urls = m.visited_urls ∧
      m2.url_queue = rest ∧
      m2.current_url_links_with_scores = m.current_url_links_with_scores) ∧
    (∀ m3 : PoiManager, processStep validate scraper m3 = none ↔ m3.url_queue = []) := by
  constructor
  · obtain ⟨_, _, hvis, hq, _, _, hcur, _⟩ := failState_proj validate scraper m su rest
    exact ⟨failState validate scraper m su rest,
      processStep_fail validate scraper m su rest hpop hnv hraise, hvis, hq, hcur⟩
  · intro m3
    cases hp : popMax m3.url_queue with
    | none =>
        have h0 : m3.url_queue = [] := (popMax_eq_none_iff m3.url_queue).mp hp
        rw [h0]
        simp [processStep, hp]
    | some pr =>
        constructor
        · intro hnone
          exfalso
          simp only [processStep, hp] at hnone
          split at hnone
          · simp at hnone
          · split at hnone <;> simp at hnone
        · intro hq
          rw [hq] at hp
          simp [popMax] at hp

/-- Scraper used by concrete witnesses: reports one link on the seed page and
then raises, succeeding with no callbacks anywhere else. -/
def scraperW : Scraper := fun _ url =>
  if url == "http://d" then
    ScrapeResult.mk [ScrapeEvent.registerLink "http://d/x" 0.9] true
  else ScrapeResult.mk [] false

/-- C2, witness: on the seeded manager whose scrape of the seed raises, the
iteration keeps the loop alive, marks nothing visited, pushes nothing, and
keeps the diff snapshot. -/
theorem C2_witness :
    (∃ m2, processStep validatorW scraperW (seedState "http://d") = some m2 ∧
      m2.visited_urls = (seedState "http://d").visited_urls ∧
      m2.url_queue = [] ∧
      m2.current_url_links_with_scores =
        (seedState "http://d").current_url_links_with_scores) ∧
    (∀ m3 : PoiManager,
      processStep validatorW scraperW m3 = none ↔ m3.url_queue = []) :=
  C2_error_isolation validatorW scraperW (seedState "http://d")
    (ScoredURL.mk "http://d" 1.0) [] (by with_unfolding_all decide)
    (by with_unfolding_all decide) (by with_unfolding_all decide)

/-- C8: popping an already-visited URL leaves the whole state unchanged
except for removing that frontier entry — in particular the scraper is not
invoked (the ghost trace is untouched) and visited set, link log, registry
and diff snapshot stay as they were; and over any whole crawl from a seed,
the scraper completes successfully at most once per distinct URL. -/
theorem C8_visited_noop (validate : Validator) (scraper : Scraper) :
    (∀ m su rest, popMax m.url_queue = some (su, rest) →
      su.url ∈ m.visited_urls →
      processStep validate scraper m = some { m with url_queue := rest }) ∧
    (∀ base fuel u,
      countSuccess (processLoop validate scraper fuel (seedState base)).trace u ≤ 1) := by
  constructor
  · exact fun m su rest hpop hv => processStep_visited validate scraper m su rest hpop hv
  · intro base fuel u
    have hinv : TraceInv (seedState base) := by
      intro v
      simp [TraceInv, countSuccess, seedState, _add_to_queue, PoiManager.init]
    have h := processLoop_inv validate scraper TraceInv
      (fun m m2 hs hm => traceInv_step validate scraper m m2 hs hm) fuel
      (seedState base) hinv
    rw [h u]
    split <;> omega

/-- Manager used by the C8 witness: the seed is queued but already visited. -/
def mVisitedW : PoiManager :=
  { seedState "http://d" with visited_urls := ["http://d"] }

/-- C8, witness: popping the already-visited seed only removes the frontier
entry. -/
theorem C8_witness :
    processStep validatorW scraperW mVisitedW = some { mVisitedW with url_queue := [] } :=
  (C8_visited_noop validatorW scraperW).1 mVisitedW (ScoredURL.mk "http://d" 1.0) []
    (by with_unfolding_all decide) (by with_unfolding_all decide)

/-- Scraper driving the C1 run: the seed page reports links `p1` and `p2`,
page `p1` reports `p3`, all other pages report nothing; nothing raises. -/
def scraperC1 : Scraper := fun _ url =>
  if url == "http://d" then
    ScrapeResult.mk [ScrapeEvent.registerLink "http://d/p1" 0.9,
      ScrapeEvent.registerLink "http://d/p2" 0.8] false
  else if url == "http://d/p1" then
    ScrapeResult.mk [ScrapeEvent.registerLink "http://d/p3" 0.9] false
  else ScrapeResult.mk [] false

/-- The crawl state after `n` iterations of the C1 run. -/
def stateC1 (n : Nat) : PoiManager :=
  processLoop validatorW scraperC1 n (seedState "http://d")

/-- C1, counterexample to the claim as stated: in the C1 run all three
iterations succeed; the pair `("http://d/p1", 0.9)` is already in the link
log at the end of iteration 2 (it was logged in iteration 1), yet iteration 3
considers it again: it is in the newly-reported set iteration 3 computes,
because the code subtracts only the previous iteration's diff, not the
previous link-log set. -/
theorem C1_counterexample :
    (stateC1 3).trace =
      [("http://d", true), ("http://d/p1", true), ("http://d/p3", true)] ∧
    ("http://d/p1", (0.9 : ℚ)) ∈ (stateC1 2).all_links_with_scores ∧
    ("http://d/p1", (0.9 : ℚ)) ∈ (stateC1 3).current_url_links_with_scores := by
  with_unfolding_all decide

/-- C1 (amended): at a successful iteration the set of link reports
considered for frontier admission is exactly the set of `(url, score)` pairs
present in the link log now but absent from the *previous iteration's
newly-reported set* (the snapshot `_current_url_links_with_scores`, which is
updated only on success) — not absent from the full link-log set of the
previous iteration — and two reports with an identical pair collapse to
one. -/
theorem C1_new_link_extraction (validate : Validator) (scraper : Scraper)
    (m m2 : PoiManager) (su : ScoredURL) (rest : List ScoredURL)
    (hpop : popMax m.url_queue = some (su, rest))
    (hnv : su.url ∉ m.visited_urls)
    (hok : (scraper m.trace su.url).raises = false)
    (hstep : processStep validate scraper m = some m2) :
    (∀ p : String × ℚ, p ∈ m2.current_url_links_with_scores ↔
      p ∈ m2.all_links_with_scores ∧ p ∉ m.current_url_links_with_scores) ∧
    m2.current_url_links_with_scores.Nodup := by
  rw [processStep_success validate scraper m su rest hpop hnv hok] at hstep
  have hm2 : successState validate scraper m su rest = m2 := by
    injection hstep
  obtain rfl := hm2.symm
  obtain ⟨_, _, _, _, _, hlog, hcur, _⟩ := successState_proj validate scraper m su rest
  constructor
  · intro p
    rw [hcur, hlog, mem_setDiffLinks]
  · rw [hcur]
    exact setDiffLinks_nodup _ _

/-- C1, witness for the amended claim: the first iteration of the C1 run
computes as its considered set exactly the logged pairs not in the (empty)
previous snapshot, with no duplicates. -/
theorem C1_witness :
    (∀ p : String × ℚ, p ∈ (stateC1 1).current_url_links_with_scores ↔
      p ∈ (stateC1 1).all_links_with_scores ∧
        p ∉ (seedState "http://d").current_url_links_with_scores) ∧
    (stateC1 1).current_url_links_with_scores.Nodup :=
  C1_new_link_extraction validatorW scraperC1 (seedState "http://d") (stateC1 1)
    (ScoredURL.mk "http://d" 1.0) []
    (by with_unfolding_all decide) (by with_unfolding_all decide)
    (by with_unfolding_all decide) (by with_unfolding_all decide)

/-- C9: starting from a seed whose scrape succeeds with no link reports and
no POI registrations, the crawl does exactly one iteration — the frontier is
then empty (natural termination), the seed is the one visited URL, the one
trace entry is its successful scrape — and the returned registry is empty. -/
theorem C9_single_page_termination (validate : Validator) (scraper : Scraper)
    (base : String) (fuel : Nat)
    (hev : (scraper [] base).events = [])
    (hok : (scraper [] base).raises = false)
    (hfuel : 1 ≤ fuel) :
    (processLoop validate scraper fuel (seedState base)).poi_list = [] ∧
    (processLoop validate scraper fuel (seedState base)).visited_urls = [base] ∧
    (processLoop validate scraper fuel (seedState base)).url_queue = [] ∧
    (processLoop validate scraper fuel (seedState base)).trace = [(base, true)] ∧
    process validate scraper fuel (PoiManager.init base) = [] := by
  obtain ⟨n, rfl⟩ : ∃ n, fuel = n + 1 := ⟨fuel - 1, by omega⟩
  have hpop : popMax (seedState base).url_queue = some (ScoredURL.mk base 1.0, []) := by
    simp [seedState, _add_to_queue, PoiManager.init, popMax]
  have hnv : (ScoredURL.mk base 1.0).url ∉ (seedState base).visited_urls := by
    simp [seedState, _add_to_queue, PoiManager.init]
  have hok2 : (scraper (seedState base).trace (ScoredURL.mk base 1.0).url).raises = false :=
    hok
  have hsucc := processStep_success validate scraper (seedState base)
    (ScoredURL.mk base 1.0) [] hpop hnv hok2
  have hS : successState validate scraper (seedState base) (ScoredURL.mk base 1.0) [] =
      { base_url := base, base_domain := urlparse_netloc base,
        visited_urls := [base], url_queue := [], poi_list := [],
        all_links_with_scores := [], current_url_links_with_scores := [],
        trace := [(base, true)] } := by
    unfold successState
    rw [show (scraper (seedState base).trace (ScoredURL.mk base 1.0).url).events = []
      from hev]
    simp [applyEvents, seedState, _add_to_queue, PoiManager.init, setDiffLinks,
      _process_new_urls, addVisited]
  have hloop : processLoop validate scraper (n + 1) (seedState base) =
      { base_url := base, base_domain := urlparse_netloc base,
        visited_urls := [base], url_queue := [], poi_list := [],
        all_links_with_scores := [], current_url_links_with_scores := [],
        trace := [(base, true)] } := by
    simp only [processLoop, hsucc]
    rw [hS]
    exact processLoop_of_empty validate scraper n _ rfl
  have hproc : process validate scraper (n + 1) (PoiManager.init base) =
      (processLoop validate scraper (n + 1) (seedState base)).poi_list := rfl
  refine ⟨by rw [hloop], by rw [hloop], by rw [hloop], by rw [hloop], ?_⟩
  rw [hproc, hloop]

/-- Scraper for the C9 witness: succeeds everywhere with no callbacks. -/
def scraperQuietW : Scraper := fun _ _ => ScrapeResult.mk [] false

/-- C9, witness: the concrete crawl from `"https://example.com"` with a
silent scraper stops after its single iteration with an empty registry. -/
theorem C9_witness :
    (processLoop validatorW scraperQuietW 1 (seedState "https://example.com")).poi_list = [] ∧
    (processLoop validatorW scraperQuietW 1 (seedState "https://example.com")).visited_urls =
      ["https://example.com"] ∧
    (processLoop validatorW scraperQuietW 1 (seedState "https://example.com")).url_queue = [] ∧
    (processLoop validatorW scraperQuietW 1 (seedState "https://example.com")).trace =
      [("https://example.com", true)] ∧
    process validatorW scraperQuietW 1 (PoiManager.init "https://example.com") = [] :=
  C9_single_page_termination validatorW scraperQuietW "https://example.com" 1
    (by with_unfolding_all decide) (by with_unfolding_all decide) (by decide)

/-- Scraper driving the C10 run: the seed page reports `v` (0.9), `w` (0.8)
and `u` (0.3); page `v` reports `u` (0.3) again and then raises; every other
page succeeds silently. -/
def scraperC10 : Scraper := fun _ url =>
  if url == "http://d" then
    ScrapeResult.mk [ScrapeEvent.registerLink "http://d/v" 0.9,
      ScrapeEvent.registerLink "http://d/w" 0.8,
      ScrapeEvent.registerLink "http://d/u" 0.3] false
  else if url == "http://d/v" then
    ScrapeResult.mk [ScrapeEvent.registerLink "http://d/u" 0.3] true
  else ScrapeResult.mk [] false

/-- The crawl state after `n` iterations of the C10 run. -/
def stateC10 (n : Nat) : PoiManager :=
  processLoop validatorW scraperC10 n (seedState "http://d")

/-- C10, counterexample to the claim as stated: iteration 2 (page `v`)
registers `("http://d/u", 0.3)` and then raises — the log retains the report
(its count rises from 1 to 2) — but the pair is *not* included in the
newly-reported set of iteration 3, the next exception-free iteration, because
the identical pair already sat in the previous-diff snapshot from iteration
1's seed page. -/
theorem C10_counterexample :
    (stateC10 3).trace =
      [("http://d", true), ("http://d/v", false), ("http://d/w", true)] ∧
    (stateC10 1).all_links_with_scores.count ("http://d/u", (0.3 : ℚ)) = 1 ∧
    (stateC10 2).all_links_with_scores.count ("http://d/u", (0.3 : ℚ)) = 2 ∧
    ("http://d/u", (0.3 : ℚ)) ∉ (stateC10 3).current_url_links_with_scores := by
  with_unfolding_all decide

/-- C10 (amended): link reports registered during a raising invocation are
retained in the append-only link log, and the previous-diff snapshot is
unchanged by the failed iteration; at the next exception-free iteration every
logged `(url, score)` pair is included in the newly-reported set — *unless*
the identical pair already belongs to the previous-diff snapshot (the last
successful iteration's newly-reported set), in which case it is dropped
rather than evaluated again. -/
theorem C10_failed_links_requeue (validate : Validator) (scraper : Scraper)
    (m m2 : PoiManager) (hstep : processStep validate scraper m = some m2) :
    (∃ t, m2.all_links_with_scores = m.all_links_with_scores ++ t) ∧
    (∀ su rest, popMax m.url_queue = some (su, rest) → su.url ∉ m.visited_urls →
      (scraper m.trace su.url).raises = true →
      m2.current_url_links_with_scores = m.current_url_links_with_scores) ∧
    (∀ su rest, popMax m.url_queue = some (su, rest) → su.url ∉ m.visited_urls →
      (scraper m.trace su.url).raises = false →
      ∀ p : String × ℚ, p ∈ m2.all_links_with_scores →
        p ∉ m.current_url_links_with_scores →
        p ∈ m2.current_url_links_with_scores) := by
  refine ⟨?_, ?_, ?_⟩
  · obtain ⟨su, rest, hpop, hcase⟩ := processStep_shape validate scraper m m2 hstep
    rcases hcase with ⟨_, rfl⟩ | ⟨_, _, rfl⟩ | ⟨_, _, rfl⟩
    · exact ⟨[], by simp⟩
    · obtain ⟨t, ht⟩ := applyEvents_log validate
        (scraper m.trace su.url).events { m with url_queue := rest }
      rw [(failState_proj validate scraper m su rest).2.2.2.2.2.1]
      exact ⟨t, ht⟩
    · obtain ⟨t, ht⟩ := applyEvents_log validate
        (scraper m.trace su.url).events { m with url_queue := rest }
      rw [(successState_proj validate scraper m su rest).2.2.2.2.2.1]
      exact ⟨t, ht⟩
  · intro su rest hpop hnv hr
    rw [processStep_fail validate scraper m su rest hpop hnv hr] at hstep
    have hm2 : failState validate scraper m su rest = m2 := by injection hstep
    obtain rfl := hm2.symm
    exact (failState_proj validate scraper m su rest).2.2.2.2.2.2.1
  · intro su rest hpop hnv hr p hlog hdiff
    rw [processStep_success validate scraper m su rest hpop hnv hr] at hstep
    have hm2 : successState validate scraper m su rest = m2 := by injection hstep
    obtain rfl := hm2.symm
    obtain ⟨_, _, _, _, _, hl, hc, _⟩ := successState_proj validate scraper m su rest
    rw [hc, mem_setDiffLinks]
    rw [hl] at hlog
    exact ⟨hlog, hdiff⟩

/-- C10, witness: applying the amended statement to iteration 2 of the C10
run (the raising scrape of page `v`): the log only grows and the snapshot is
untouched. -/
theorem C10_witness :
    (∃ t, (stateC10 2).all_links_with_scores =
      (stateC10 1).all_links_with_scores ++ t) ∧
    (∀ su rest, popMax (stateC10 1).url_queue = some (su, rest) →
      su.url ∉ (stateC10 1).visited_urls →
      (scraperC10 (stateC10 1).trace su.url).raises = true →
      (stateC10 2).current_url_links_with_scores =
        (stateC10 1).current_url_links_with_scores) ∧
    (∀ su rest, popMax (stateC10 1).url_queue = some (su, rest) →
      su.url ∉ (stateC10 1).visited_urls →
      (scraperC10 (stateC10 1).trace su.url).raises = false →
      ∀ p : String × ℚ, p ∈ (stateC10 2).all_links_with_scores →
        p ∉ (stateC10 1).current_url_links_with_scores →
        p ∈ (stateC10 2).current_url_links_with_scores) :=
  C10_failed_links_requeue validatorW scraperC10 (stateC10 1) (stateC10 2)
    (by with_unfolding_all decide)
